import Mathlib

/-!  Verification of the Book repository (DOCX → static-site converter).

This file shallowly embeds the parts of the two JavaScript sources that
the claims are about:

* `src/converter.js`: `cleanupArtifacts`, `extractDocumentStructure`;
* `src/unnamed/part_000` (novel2site): `escapeHTML`, `normalizeRefs`,
  `processConlangInText`, `extractFootnotes`, `parseAndCleanFootnotes`,
  `parseChapters`' chapter classification, `generateId`, and the
  UI-span pass of the main loop.

Strings are modelled as `List Char` (`String.data`).  Each JavaScript
regular expression is compiled by hand into an explicit scanner with the
engine's semantics (leftmost match, left alternative first, greedy
quantifiers with backtracking); where backtracking provably cannot
change the outcome the scanner takes the greedy run directly (noted at
each definition).  The global `replace` loop is a fuel-indexed scanner;
the fuel `length + 1` always suffices because every step consumes at
least one character.  JavaScript `Map`s are association lists with
`set`-overwrite semantics.
-/

namespace Book

/-! ## Character and string utilities -/

/-- The apostrophe character, written by code point. -/
def apos : Char := Char.ofNat 39

/-- Whitespace for the sources' `\s` and `trim` (the subset that can occur
in the inputs considered here; JS `\s` also contains rarer code points). -/
def isSpaceC (c : Char) : Bool :=
  decide (c = ' ') || decide (c = '\t') || decide (c = '\n') || decide (c = '\r')

/-- JS `String.prototype.trim` on a character list. -/
def trimL (l : List Char) : List Char :=
  ((l.dropWhile isSpaceC).reverse.dropWhile isSpaceC).reverse

/-- Case-sensitive substring test (`String.prototype.includes` /
an unanchored literal regex). -/
def isSubL (pat : List Char) : List Char → Bool
  | [] => decide (pat = [])
  | c :: rest => pat.isPrefixOf (c :: rest) || isSubL pat rest

/-- Lower-cased character list of a string, for case-insensitive tests. -/
def lowerL (s : String) : List Char := s.data.map Char.toLower

/-! ## escapeHTML (part_000 lines 32-37)

`s.replace(/&/g,'&amp;').replace(/</g,'&lt;').replace(/>/g,'&gt;')
  .replace(/"/g,'&quot;').replace(/'/g,'&#39;')` -/

/-- Single-character global replace, `s.replace(/c/g, r)`. -/
def repC (c : Char) (r : List Char) : List Char → List Char
  | [] => []
  | x :: xs => if x = c then r ++ repC c r xs else x :: repC c r xs

/-- The five sequential replaces of `escapeHTML`, `&` first. -/
def escL (l : List Char) : List Char :=
  repC apos "&#39;".data
    (repC '"' "&quot;".data
      (repC '>' "&gt;".data
        (repC '<' "&lt;".data
          (repC '&' "&amp;".data l))))

/-- `escapeHTML` from part_000. -/
def escapeHTML (s : String) : String := ⟨escL s.data⟩

/-- Per-character specification of the escape (used to reason about the
composition of the five replaces). -/
def esc1 (c : Char) : List Char :=
  if c = '&' then "&amp;".data
  else if c = '<' then "&lt;".data
  else if c = '>' then "&gt;".data
  else if c = '"' then "&quot;".data
  else if c = apos then "&#39;".data
  else [c]

/-- `escSpec l` maps `esc1` over `l` and concatenates. -/
def escSpec : List Char → List Char
  | [] => []
  | c :: l => esc1 c ++ escSpec l

/-- A character is one the spec forbids in escaped output. -/
def badC (c : Char) : Bool :=
  decide (c = '<') || decide (c = '>') || decide (c = '"') || decide (c = apos)

/-! ## Duplicated-marker artifacts

part_000 line 46-47: `NORMALIZE_RX = /(\d+)F\1F/g`,
`normalizeRefs = txt => txt.replace(NORMALIZE_RX, '$1F')`.
converter.js lines 162-175 (`cleanupArtifacts`):
`/(\d+)F\1F(?:\[\d+\])?/g` replaced by the empty string. -/

/-- Head match of `(\d+)F\1F`: the leading maximal digit run `d` (the
backtracking regex can only succeed with the maximal run, since any
shorter run is followed by a digit, not `F`), then `F`, `d` again, `F`.
Returns the digits and the rest of the input after the match. -/
def tryDup (l : List Char) : Option (List Char × List Char) :=
  let d := l.takeWhile Char.isDigit
  if d = [] then none
  else
    let r := l.dropWhile Char.isDigit
    let pat := 'F' :: (d ++ ['F'])
    if pat.isPrefixOf r then some (d, r.drop pat.length) else none

/-- Fuel-indexed global replace of `(\d+)F\1F` by `$1F` (`normalizeRefs`). -/
def nrep : Nat → List Char → List Char
  | 0, l => l
  | _ + 1, [] => []
  | f + 1, c :: rest =>
    match tryDup (c :: rest) with
    | some (d, rem) => d ++ 'F' :: nrep f rem
    | none => c :: nrep f rest

/-- `normalizeRefs` from part_000 line 47. -/
def normalizeRefs (s : String) : String := ⟨nrep (s.data.length + 1) s.data⟩

/-- No suffix of the list matches the duplicated-marker pattern (so the
normalization scanner emits every character unchanged). -/
def noDup : List Char → Bool
  | [] => true
  | c :: rest => (tryDup (c :: rest)).isNone && noDup rest

/-- The optional `(?:\[\d+\])?` tail of the `cleanupArtifacts` pattern:
consume `[digits]` if it is present, otherwise leave the input alone. -/
def dropOptBracketNum (l : List Char) : List Char :=
  match l with
  | c :: r =>
    if c = '[' then
      let d := r.takeWhile Char.isDigit
      if d = [] then l
      else
        match r.dropWhile Char.isDigit with
        | ']' :: rest => rest
        | _ => l
    else l
  | [] => l

/-- Fuel-indexed global replace of `(\d+)F\1F(?:\[\d+\])?` by the EMPTY
string (`cleanupArtifacts` of converter.js). -/
def crepClean : Nat → List Char → List Char
  | 0, l => l
  | _ + 1, [] => []
  | f + 1, c :: rest =>
    match tryDup (c :: rest) with
    | some (_, rem) => crepClean f (dropOptBracketNum rem)
    | none => c :: crepClean f rest

/-- `cleanupArtifacts` of converter.js applied to one text node's text. -/
def cleanupArtifacts (s : String) : String := ⟨crepClean (s.data.length + 1) s.data⟩

/-! ## The footnote mapping (a JS `Map` keyed by numeral strings) -/

/-- The footnote mapping: an association list with JS-`Map` semantics. -/
abbrev FMap := List (String × String)

/-- `Map.prototype.get`. -/
def mget : FMap → String → Option String
  | [], _ => none
  | (k', v) :: rest, k => if k' = k then some v else mget rest k

/-- `Map.prototype.set`: overwrite in place if the key exists (keeping its
position, as JS does), else append. -/
def mset : FMap → String → String → FMap
  | [], k, v => [(k, v)]
  | (k', v') :: rest, k, v =>
    if k' = k then (k', v) :: rest else (k', v') :: mset rest k v

/-- `new Map(entries)`: set every pair left to right. -/
def mkMap (l : List (String × String)) : FMap :=
  l.foldl (fun m p => mset m p.1 p.2) []

/-- The value of the LAST entry of an entry list carrying a given key. -/
def lastOf : List (String × String) → String → Option String
  | [], _ => none
  | p :: rest, k =>
    match lastOf rest k with
    | some v => some v
    | none => if p.1 = k then some p.2 else none

/-- part_000 line 693: `new Map([...extractedFootnotes, ...additionalFootnotes])`. -/
def footMapMerge (a b : FMap) : FMap := mkMap (a ++ b)

/-! ## Conlang marker substitution (part_000 lines 128-146)

`processConlangInText` first runs the `(\d+)F\1F → $1F` normalization,
then replaces every match of `/\[(\d+)F?\]|(\d+)F/g` by a span. -/

/-- Head match of `\[(\d+)F?\]|(\d+)F`.  At a `[` only the first
alternative can apply (the second needs a digit first); the `F?` is
greedy but if the `]` then fails the zero-width retry also fails because
the next character is `F`, not `]` — so the scanner checks `F]` then `]`.
Returns the captured digits and the rest after the match. -/
def tryMarker : List Char → Option (List Char × List Char)
  | [] => none
  | c :: r =>
    if c = '[' then
      let d := r.takeWhile Char.isDigit
      if d = [] then none
      else
        match r.dropWhile Char.isDigit with
        | 'F' :: ']' :: rest => some (d, rest)
        | ']' :: rest => some (d, rest)
        | _ => none
    else
      let d := (c :: r).takeWhile Char.isDigit
      if d = [] then none
      else
        match (c :: r).dropWhile Char.isDigit with
        | 'F' :: rest => some (d, rest)
        | _ => none

/-- The replacement span when the numeral resolves (part_000 line 142). -/
def spanFound (d : List Char) (t : String) : List Char :=
  "<span class=\"conlang\" data-tr=\"".data ++ escL t.data
    ++ "\">".data ++ d ++ "F</span>".data

/-- The replacement span when the numeral is missing (part_000 line 139):
note the payload is bracketed, `[translation missing for n]`. -/
def spanMissing (d : List Char) : List Char :=
  "<span class=\"conlang missing\" data-tr=\"[translation missing for ".data
    ++ d ++ "]\">".data ++ d ++ "F</span>".data

/-- The replacement callback of `processConlangInText`. -/
def spanFor (m : FMap) (d : List Char) : List Char :=
  match mget m ⟨d⟩ with
  | some t => spanFound d t
  | none => spanMissing d

/-- Fuel-indexed global replace of the marker pattern by spans. -/
def crepM : Nat → FMap → List Char → List Char
  | 0, _, l => l
  | _ + 1, _, [] => []
  | f + 1, m, c :: rest =>
    match tryMarker (c :: rest) with
    | some (d, rem) => spanFor m d ++ crepM f m rem
    | none => c :: crepM f m rest

/-- `processConlangInText` from part_000 lines 128-146: normalization of
`nFnF` artifacts first, then marker-to-span substitution. -/
def processConlangInText (s : String) (m : FMap) : String :=
  let n := nrep (s.data.length + 1) s.data
  ⟨crepM (n.length + 1) m n⟩

/-- Marker substitution alone (the second `replace` of
`processConlangInText`), used to state that normalization runs first. -/
def conlangSubstOnly (s : String) (m : FMap) : String :=
  ⟨crepM (s.data.length + 1) m s.data⟩

/-! ## The UI-span pass (part_000 lines 727-740)

`html.replace(/\[([^\]]+)\]/g, (match, content) => ...)` where the
callback returns `match` when `/^\d+F?$/.test(content)` and otherwise the
template literal `<span class="ui">[$1]</span>` — a function replacement,
so `$1` is NOT substituted and appears literally in the output. -/

/-- Head match of `\[([^\]]+)\]`: `[`, a maximal nonempty run of
non-`]` characters (backtracking to a shorter run cannot reach a `]`),
then `]`.  Returns the content and the rest. -/
def tryUI : List Char → Option (List Char × List Char)
  | [] => none
  | c :: r =>
    if c = '[' then
      let w := r.takeWhile (fun x => !decide (x = ']'))
      if w = [] then none
      else
        match r.dropWhile (fun x => !decide (x = ']')) with
        | ']' :: rest => some (w, rest)
        | _ => none
    else none

/-- `/^\d+F?$/` on the bracket content. -/
def isMarkerContent (c : List Char) : Bool :=
  let d := c.takeWhile Char.isDigit
  match d, c.drop d.length with
  | [], _ => false
  | _ :: _, [] => true
  | _ :: _, ['F'] => true
  | _, _ => false

/-- The literal text the callback returns for non-marker content: the
`$1` is not a replacement pattern inside a callback, so it is emitted
verbatim. -/
def uiSpanLit : List Char := "<span class=\"ui\">[$1]</span>".data

/-- Fuel-indexed global replace for the UI pass. -/
def urep : Nat → List Char → List Char
  | 0, l => l
  | _ + 1, [] => []
  | f + 1, c :: rest =>
    match tryUI (c :: rest) with
    | some (content, rem) =>
      (if isMarkerContent content then '[' :: (content ++ [']']) else uiSpanLit)
        ++ urep f rem
    | none => c :: urep f rest

/-- The guard `/\[.*?\]/.test(html)`: some `[` is followed by a `]` with
no newline in between (`.` does not match newlines). -/
def uiGuard : List Char → Bool
  | [] => false
  | c :: r =>
    (decide (c = '[') &&
      (match (r.dropWhile (fun x => !decide (x = ']') && !decide (x = '\n'))).head? with
       | some ']' => true
       | _ => false)) || uiGuard r

/-- The UI-span pass on one paragraph's inline HTML (part_000 727-740). -/
def processUIElements (s : String) : String :=
  if uiGuard s.data then ⟨urep (s.data.length + 1) s.data⟩ else s

/-! ## extractFootnotes (part_000 lines 49-126)

Elements are modelled flatly: tag name, `id` and `class` attributes,
text content, and (for the sup/sub pass) the parent's text content. -/

structure FElem where
  tag : String
  id : String
  cls : String
  text : String
  parentText : String
deriving DecidableEq

/-- First maximal digit run anywhere in a character list (`/(\d+)/`). -/
def firstDigitRun : List Char → Option (List Char)
  | [] => none
  | c :: rest =>
    if c.isDigit then some ((c :: rest).takeWhile Char.isDigit)
    else firstDigitRun rest

/-- `/^(\d+)[\s\.\)]/`: leading digits followed by whitespace, `.` or `)`
(shorter digit runs are followed by a digit, which is not in the class,
so only the maximal run can match). -/
def leadNumPunct (l : List Char) : Option (List Char) :=
  let d := l.takeWhile Char.isDigit
  if d = [] then none
  else
    match l.dropWhile Char.isDigit with
    | c :: _ =>
      if isSpaceC c || decide (c = '.') || decide (c = ')') then some d else none
    | [] => none

/-- Head match of `\[(\d+)\]`. -/
def tryBrNum : List Char → Option (List Char)
  | [] => none
  | c :: r =>
    if c = '[' then
      let d := r.takeWhile Char.isDigit
      if d = [] then none
      else
        match r.dropWhile Char.isDigit with
        | ']' :: _ => some d
        | _ => none
    else none

/-- Scan for `\[(\d+)\]` anywhere. -/
def scanBrNum : List Char → Option (List Char)
  | [] => none
  | c :: rest =>
    match tryBrNum (c :: rest) with
    | some d => some d
    | none => scanBrNum rest

/-- `/\[(\d+)\]|^(\d+)$/`: at position 0 the engine tries the bracketed
alternative, then the anchored all-digits alternative; from position 1 on
only the bracketed one can apply. -/
def refNumPattern (l : List Char) : Option (List Char) :=
  match tryBrNum l with
  | some d => some d
  | none =>
    if !decide (l = []) && l.all Char.isDigit then some l
    else
      match l with
      | [] => none
      | _ :: rest => scanBrNum rest

/-- `text.replace(/^[\[\(]?\d+[\]\)]?[\s\.\)]*/, '')`: one anchored
replace.  If the optional open bracket is present but no digits follow,
the zero-width retry of `[\[\(]?` also fails (the bracket is not a
digit), so the text is unchanged. -/
def stripLead1 (l : List Char) : List Char :=
  match l with
  | c :: r =>
    if c = '[' || c = '(' then
      let d := r.takeWhile Char.isDigit
      if d = [] then l
      else
        let r2 := r.dropWhile Char.isDigit
        let r3 := match r2 with
          | x :: rr => if x = ']' || x = ')' then rr else r2
          | [] => r2
        r3.dropWhile (fun x => isSpaceC x || decide (x = '.') || decide (x = ')'))
    else
      let d := l.takeWhile Char.isDigit
      if d = [] then l
      else
        let r2 := l.dropWhile Char.isDigit
        let r3 := match r2 with
          | x :: rr => if x = ']' || x = ')' then rr else r2
          | [] => r2
        r3.dropWhile (fun x => isSpaceC x || decide (x = '.') || decide (x = ')'))
  | [] => []

/-- `.replace(/^\d+\s*/, '')`, the second anchored replace. -/
def stripLead2 (l : List Char) : List Char :=
  match l with
  | c :: _ =>
    if c.isDigit then (l.dropWhile Char.isDigit).dropWhile isSpaceC else l
  | [] => l

/-- Numeral recovery of the selector pass of `extractFootnotes`
(part_000 lines 72-90): id digits, else leading numeral + punctuation,
else the `\[(\d+)\]|^(\d+)$` pattern.  `t` is the trimmed element text. -/
def efNum (id : String) (t : List Char) : Option (List Char) :=
  match firstDigitRun id.data with
  | some n => some n
  | none =>
    match leadNumPunct t with
    | some n => some n
    | none => refNumPattern t

/-- The text cleanup of the selector pass (part_000 lines 94-97). -/
def efClean (t : List Char) : List Char :=
  trimL (stripLead2 (stripLead1 t))

/-- The footnote selector list of part_000 lines 53-64: id starts with
`footnote-`, `sdfootnote`, `_ftn` or `fn`; class `footnote` or
`MsoFootnoteText` or containing `footnote`; or a `div`/`p`/`span` whose
id contains `footnote` (attribute matching is case-sensitive). -/
def matchesFootnoteSel (e : FElem) : Bool :=
  "footnote-".data.isPrefixOf e.id.data ||
  "sdfootnote".data.isPrefixOf e.id.data ||
  "_ftn".data.isPrefixOf e.id.data ||
  "fn".data.isPrefixOf e.id.data ||
  (e.cls.splitOn " ").contains "footnote" ||
  (e.cls.splitOn " ").contains "MsoFootnoteText" ||
  isSubL "footnote".data e.cls.data ||
  ((decide (e.tag = "div") || decide (e.tag = "p") || decide (e.tag = "span")) &&
    isSubL "footnote".data e.id.data)

/-- One element of the selector pass: `if (num && text) { ... if
(cleanText) map.set(num, cleanText) }` (part_000 lines 92-103). -/
def efPass1 (m : FMap) (e : FElem) : FMap :=
  let t := trimL e.text.data
  match efNum e.id t with
  | some num =>
    if t = [] then m
    else
      let ct := efClean t
      if ct = [] then m else mset m ⟨num⟩ ⟨ct⟩
  | none => m

/-- The parent-text context scan of the sup/sub pass: the first position
where `num` occurs, followed by `[\s\.:]*` then `(.+)` (at least one
non-newline character).  The greedy punctuation run gives one character
back when nothing is left for `(.+)`; `(.+)` then captures up to the
next newline. -/
def findCtx (num : List Char) : List Char → Option (List Char)
  | [] => none
  | c :: rest =>
    (if num.isPrefixOf (c :: rest) then
      let after := (c :: rest).drop num.length
      let w := after.takeWhile (fun x => isSpaceC x || decide (x = '.') || decide (x = ':'))
      let r := after.drop w.length
      match r with
      | _ :: _ => some (r.takeWhile (fun x => !decide (x = '\n')))
      | [] =>
        match w.reverse with
        | x :: _ => if x = '\n' then none else some [x]
        | [] => none
    else none).elim (findCtx num rest) some

/-- One sup/sub element of the last-resort pass (part_000 lines 107-123):
if the trimmed text is all digits, look the numeral up in the parent's
text and `map.set` the trimmed capture. -/
def efPass2 (m : FMap) (e : FElem) : FMap :=
  let t := trimL e.text.data
  if !decide (t = []) && t.all Char.isDigit then
    match findCtx t e.parentText.data with
    | some cap => mset m ⟨t⟩ ⟨trimL cap⟩
    | none => m
  else m

/-- `extractFootnotes` (part_000 lines 49-126): the selector pass over
all matching elements, then the sup/sub pass, on one shared `Map`. -/
def extractFootnotes (els : List FElem) : FMap :=
  (els.filter (fun e => decide (e.tag = "sup") || decide (e.tag = "sub"))).foldl
    efPass2
    ((els.filter matchesFootnoteSel).foldl efPass1 [])

/-! ## parseAndCleanFootnotes (part_000 lines 490-542)

A footnote-definition container: a `div`/`section` whose id or class
contains `footnote`, holding child elements (`find('p, div, span')`). -/

structure FNode where
  tag : String
  id : String
  cls : String
  children : List FElem
deriving DecidableEq

/-- The container selectors of part_000 lines 494-499. -/
def isFootSection (n : FNode) : Bool :=
  (decide (n.tag = "div") || decide (n.tag = "section")) &&
    (isSubL "footnote".data n.id.data || isSubL "footnote".data n.cls.data)

/-- Numeral recovery for a container child (part_000 lines 511-514):
`idMatch?.[1] || textMatch?.[1]`. -/
def pcNum (c : FElem) : Option (List Char) :=
  match firstDigitRun c.id.data with
  | some n => some n
  | none => leadNumPunct (trimL c.text.data)

/-- One container child (part_000 lines 508-521): record the numeral with
the stripped text, unless the stripped text is empty. -/
def pcChild (m : FMap) (c : FElem) : FMap :=
  let t := trimL c.text.data
  match pcNum c with
  | some num =>
    let ct := trimL (stripLead1 t)
    if ct = [] then m else mset m ⟨num⟩ ⟨ct⟩
  | none => m

/-- Tag filter of `$section.find('p, div, span')`. -/
def isPcChildTag (c : FElem) : Bool :=
  decide (c.tag = "p") || decide (c.tag = "div") || decide (c.tag = "span")

/-- One node of the container scan of `parseAndCleanFootnotes`: a
matching container has its children scanned into the map and is then
removed (`$section.remove()`) from the flow, unconditionally; any other
node is kept. -/
def pacfStep (acc : List FNode × FMap) (n : FNode) : List FNode × FMap :=
  if isFootSection n then
    (acc.1, (n.children.filter isPcChildTag).foldl pcChild acc.2)
  else (acc.1 ++ [n], acc.2)

/-- `parseAndCleanFootnotes` (part_000 lines 490-542) restricted to its
container scan.  Returns (remaining flow, map). -/
def parseAndCleanFootnotes (doc : List FNode) : List FNode × FMap :=
  doc.foldl pacfStep ([], [])

/-! ## The structure partitioner of converter.js (lines 182-329) -/

inductive HTag | h1 | h2 | h3 | para
deriving DecidableEq

/-- One parsed block: `$('h1, h2, h3, p')` element with its text. -/
structure Block where
  tag : HTag
  text : String
deriving DecidableEq

/-- `$(el).is('h1, h2')`. -/
def isTopHeading (b : Block) : Bool :=
  decide (b.tag = HTag.h1) || decide (b.tag = HTag.h2)

/-- `/appendix|one pagers|persons of interest|charts, maps/i.test(text)`. -/
def appendixRx (s : String) : Bool :=
  isSubL "appendix".data (lowerL s) || isSubL "one pagers".data (lowerL s) ||
  isSubL "persons of interest".data (lowerL s) || isSubL "charts, maps".data (lowerL s)

/-- `\w` of the sources' regexes. -/
def isWordC (c : Char) : Bool := c.isAlpha || c.isDigit || decide (c = '_')

/-- Unanchored `/kw\s+\w/` on a lower-cased text: some occurrence of `kw`
followed by at least one whitespace and then a word character (giving
whitespace back in backtracking only exposes whitespace, not a word
character, so the greedy run is the only candidate). -/
def kwThenWord (kw : List Char) : List Char → Bool
  | [] => false
  | c :: rest =>
    (kw.isPrefixOf (c :: rest) &&
      (let r := (c :: rest).drop kw.length
       !decide (r.takeWhile isSpaceC = []) &&
         (match r.dropWhile isSpaceC with
          | x :: _ => isWordC x
          | [] => false)))
    || kwThenWord kw rest

/-- `/chapter\s+\w+/i.test(text)`. -/
def chapterRx (s : String) : Bool := kwThenWord "chapter".data (lowerL s)

/-- `/book\s+\w+/i.test(text)`. -/
def bookRx (s : String) : Bool := kwThenWord "book".data (lowerL s)

/-- The first classification rule of `extractDocumentStructure`. -/
def isAppendixHeadingB (b : Block) : Bool := isTopHeading b && appendixRx b.text

/-- The second rule (only reached when the appendix rule did not fire). -/
def isChapterHeadingB (b : Block) : Bool :=
  isTopHeading b && !appendixRx b.text && chapterRx b.text

/-- The third rule (h1 only, only when the first two did not fire). -/
def isBookHeadingB (b : Block) : Bool :=
  decide (b.tag = HTag.h1) && bookRx b.text &&
    !isAppendixHeadingB b && !isChapterHeadingB b

/-- A block consumed as a structural heading. -/
def isStructHeadingB (b : Block) : Bool :=
  isAppendixHeadingB b || isChapterHeadingB b || isBookHeadingB b

/-- The partitioner state.  Content lists hold block positions (indices
into the input stream) standing for the `{type, html}` records the
source pushes; `books` is the length of `structure.books` (books carry
no content of their own, only aliases of chapters). -/
structure PartState where
  inFrontMatter : Bool
  front : List Nat
  books : Nat
  chapters : List (List Nat)
  appendices : List (List Nat)
  pos : Nat
  prev : Option Block

/-- Append to the last list (`structure.xs[structure.xs.length-1].content.push`). -/
def appendToLast : List (List Nat) → Nat → List (List Nat)
  | [], _ => []
  | [l], i => [l ++ [i]]
  | l :: ls, i => l :: appendToLast ls i

/-- The `$(el).prev()` appendix test of converter.js lines 296-304
(`prev` is the preceding block of the flat stream; its text is trimmed,
which cannot change the unanchored substring tests). -/
def prevAppendix : Option Block → Bool
  | none => false
  | some pb => appendixRx pb.text

/-- One iteration of the `$('h1, h2, h3, p').each` loop of
`extractDocumentStructure` (converter.js lines 195-326). -/
def stepPart (st : PartState) (b : Block) : PartState :=
  let base : PartState := { st with pos := st.pos + 1, prev := some b }
  if isTopHeading b && appendixRx b.text then
    { base with inFrontMatter := false, appendices := st.appendices ++ [[]] }
  else if isTopHeading b && chapterRx b.text then
    { base with inFrontMatter := false,
                chapters := st.chapters ++ [[]],
                books := if st.books = 0 then 1 else st.books }
  else if decide (b.tag = HTag.h1) && bookRx b.text then
    { base with inFrontMatter := false, books := st.books + 1 }
  else if st.inFrontMatter then
    { base with front := st.front ++ [st.pos] }
  else if !st.appendices.isEmpty && st.chapters.isEmpty then
    { base with appendices := appendToLast st.appendices st.pos }
  else if !st.appendices.isEmpty then
    if prevAppendix st.prev then
      { base with appendices := appendToLast st.appendices st.pos }
    else if !st.chapters.isEmpty then
      { base with chapters := appendToLast st.chapters st.pos }
    else base
  else if !st.chapters.isEmpty then
    { base with chapters := appendToLast st.chapters st.pos }
  else base

/-- The initial state of `extractDocumentStructure`. -/
def initPart : PartState := ⟨true, [], 0, [], [], 0, none⟩

/-- `extractDocumentStructure` of converter.js, as the fold of the loop. -/
def extractDocumentStructure (bs : List Block) : PartState :=
  bs.foldl stepPart initPart

/-- What happens to one block. -/
inductive BClass | heading | toFront | toAppendix | toChapter | dropped
deriving DecidableEq

/-- The part of the state that decides a block's fate. -/
structure AbsState where
  inFM : Bool
  hasChap : Bool
  hasApp : Bool
  prev : Option Block

/-- Projection of the partitioner state onto its control part. -/
def toAbs (st : PartState) : AbsState :=
  ⟨st.inFrontMatter, !st.chapters.isEmpty, !st.appendices.isEmpty, st.prev⟩

/-- The control part of `stepPart`. -/
def stepAbs (a : AbsState) (b : Block) : AbsState :=
  if isTopHeading b && appendixRx b.text then ⟨false, a.hasChap, true, some b⟩
  else if isTopHeading b && chapterRx b.text then ⟨false, true, a.hasApp, some b⟩
  else if decide (b.tag = HTag.h1) && bookRx b.text then
    ⟨false, a.hasChap, a.hasApp, some b⟩
  else ⟨a.inFM, a.hasChap, a.hasApp, some b⟩

/-- The fate `stepPart` assigns to a block in control state `a`. -/
def classifyAt (a : AbsState) (b : Block) : BClass :=
  if isTopHeading b && appendixRx b.text then .heading
  else if isTopHeading b && chapterRx b.text then .heading
  else if decide (b.tag = HTag.h1) && bookRx b.text then .heading
  else if a.inFM then .toFront
  else if a.hasApp && !a.hasChap then .toAppendix
  else if a.hasApp then
    if prevAppendix a.prev then .toAppendix
    else if a.hasChap then .toChapter
    else .dropped
  else if a.hasChap then .toChapter
  else .dropped

/-- The control state after a prefix of the stream. -/
def absOf (bs : List Block) : AbsState :=
  bs.foldl stepAbs ⟨true, false, false, none⟩

/-- The block classes that put the block into some section's content. -/
def isAssigned : BClass → Bool
  | .toFront => true
  | .toAppendix => true
  | .toChapter => true
  | _ => false

/-- Occurrences of an index in a list of content lists. -/
def cntL (j : Nat) (ls : List (List Nat)) : Nat := (ls.map (List.count j)).sum

/-- Occurrences of a block index across all sections' contents. -/
def cntAll (st : PartState) (j : Nat) : Nat :=
  st.front.count j + cntL j st.chapters + cntL j st.appendices

/-- The invariant of the partitioning fold: indices at or beyond the
current position occur in no content list yet. -/
def InvC (st : PartState) : Prop :=
  ∀ j, st.pos ≤ j → cntAll st j = 0

/-! ## parseChapters classification and generateId (part_000 544-623) -/

/-- Case-insensitive prefix: the pattern is given lower-cased. -/
def ciStartsWith : List Char → List Char → Bool
  | [], _ => true
  | _ :: _, [] => false
  | p :: ps, c :: cs => decide (p = c.toLower) && ciStartsWith ps cs

/-- After a ci occurrence of `chapter`: `\s+(\d+|[a-z]+)` with the `/i`
flag — at least one whitespace, then a maximal digit run or a maximal
letter run (the first alternative is tried first). -/
def p0TokAfter (r : List Char) : Option (List Char) :=
  let w := r.takeWhile isSpaceC
  if w = [] then none
  else
    match r.dropWhile isSpaceC with
    | c :: cs =>
      if c.isDigit then some ((c :: cs).takeWhile Char.isDigit)
      else if c.isAlpha then some ((c :: cs).takeWhile Char.isAlpha)
      else none
    | [] => none

/-- Leftmost match of `/chapter\s+(\d+|[a-z]+)/i`, returning the token. -/
def p0Scan : List Char → Option (List Char)
  | [] => none
  | c :: cs =>
    match (if ciStartsWith "chapter".data (c :: cs)
           then p0TokAfter ((c :: cs).drop 7) else none) with
    | some tok => some tok
    | none => p0Scan cs

/-- `titleText.match(/chapter\s+(\d+|[a-z]+)/i)` capture (part_000 560). -/
def p0ChapterTok (s : String) : Option String :=
  (p0Scan s.data).map (fun l => ⟨l⟩)

/-- `titleText.match(/^(\d+)\s*[:.–-]?\s*.*/)` capture (part_000 567):
everything after the leading digits is optional and `.*` closes the
pattern, so it matches exactly when the text starts with a digit and the
capture is the maximal leading digit run. -/
def p0NumberTok (s : String) : Option String :=
  match s.data with
  | c :: _ =>
    if c.isDigit then some ⟨s.data.takeWhile Char.isDigit⟩ else none
  | [] => none

/-- Whether a character list starts with a digit. -/
def headDigit : List Char → Bool
  | [] => false
  | c :: _ => c.isDigit

/-- `isChapter` of `parseChapters` (part_000 lines 556-571): the
`chapter` keyword match, or — when that failed — the bare-number match. -/
def p0IsChapter (s : String) : Bool :=
  (p0ChapterTok s).isSome || (p0NumberTok s).isSome

/-- `chapterNum` of `parseChapters`. -/
def p0ChapterNum (s : String) : Option String :=
  match p0ChapterTok s with
  | some t => some t
  | none => p0NumberTok s

/-- `generateId` (part_000 lines 607-623), over the chapter's fields it
reads: its `chapterNum`, its title and its index. -/
def generateId (chapterNum : Option String) (title : String) (index : Nat) : String :=
  match chapterNum with
  | some n => "chapter-" ++ n
  | none =>
    let lt := lowerL title
    if isSubL "preface".data lt then "preface"
    else if isSubL "prologue".data lt then "prologue"
    else if isSubL "epilogue".data lt then "epilogue"
    else if isSubL "acknowledgment".data lt then "acknowledgments"
    else if isSubL "dedication".data lt then "dedication"
    else if isSubL "contents".data lt then "toc"
    else if index = 0 then "front-matter"
    else "section-" ++ toString index

/-! ## Helper lemmas: digit runs and the duplicated-marker scanner -/

theorem takeWhile_digit_nil (l : List Char) (h : l.any Char.isDigit = false) :
    l.takeWhile Char.isDigit = [] := by
  cases l with
  | nil => rfl
  | cons c rest =>
    simp only [List.any_cons, Bool.or_eq_false_iff] at h
    simp [List.takeWhile_cons, h.1]

theorem takeWhile_digits_of_append (d : List Char) (c : Char) (r : List Char)
    (hd : ∀ x ∈ d, x.isDigit = true) (hc : c.isDigit = false) :
    (d ++ c :: r).takeWhile Char.isDigit = d ∧
      (d ++ c :: r).dropWhile Char.isDigit = c :: r := by
  induction d with
  | nil => simp [List.takeWhile_cons, List.dropWhile_cons, hc]
  | cons a d ih =>
    have ha : a.isDigit = true := hd a (List.mem_cons_self a d)
    have ih' := ih (fun x hx => hd x (List.mem_cons_of_mem a hx))
    simp [List.takeWhile_cons, List.dropWhile_cons, ha, ih'.1, ih'.2]

theorem isPrefixOf_self (l : List Char) : l.isPrefixOf l = true := by
  induction l with
  | nil => rfl
  | cons a l ih => simp [List.isPrefixOf, ih]

theorem tryDup_none_head (c : Char) (rest : List Char) (hc : c.isDigit = false) :
    tryDup (c :: rest) = none := by
  simp [tryDup, List.takeWhile_cons, hc]

theorem tryDup_dup (d s : List Char) (hd0 : d ≠ []) (hd : ∀ x ∈ d, x.isDigit = true) :
    tryDup (d ++ 'F' :: (d ++ ['F']) ++ s) = some (d, s) := by
  have hF : ('F').isDigit = false := by decide
  have h1 := takeWhile_digits_of_append d 'F' ((d ++ ['F']) ++ s) hd hF
  have hpre : ('F' :: (d ++ ['F'])).isPrefixOf ('F' :: ((d ++ ['F']) ++ s)) = true := by
    induction (d ++ ['F']) with
    | nil => simp [List.isPrefixOf]
    | cons a l ih =>
      simp only [List.isPrefixOf, List.cons_append, beq_self_eq_true, Bool.true_and] at ih ⊢
      exact ih
  have harr : d ++ 'F' :: (d ++ ['F']) ++ s = d ++ 'F' :: ((d ++ ['F']) ++ s) := by
    simp
  rw [harr]
  have hlen : ('F' :: (d ++ ['F'])).length = (d ++ ['F']).length + 1 := by simp
  simp only [tryDup, h1.1, h1.2, if_neg hd0, hpre, if_pos, hlen,
    List.drop_succ_cons, List.drop_left]

theorem nrep_nil (f : Nat) : nrep f [] = [] := by cases f <;> rfl

theorem nrep_id (l : List Char) (h : noDup l = true) :
    ∀ f, l.length ≤ f → nrep f l = l := by
  induction l with
  | nil => intro f _; exact nrep_nil f
  | cons c rest ih =>
    intro f hf
    cases f with
    | zero => simp at hf
    | succ f =>
      simp only [noDup, Bool.and_eq_true, Option.isNone_iff_eq_none] at h
      simp only [nrep, h.1]
      have hr : rest.length ≤ f := Nat.succ_le_succ_iff.mp hf
      simp [ih h.2 f hr]

theorem noDup_of_noDigit (l : List Char) (h : l.any Char.isDigit = false) :
    noDup l = true := by
  induction l with
  | nil => rfl
  | cons c rest ih =>
    simp only [List.any_cons, Bool.or_eq_false_iff] at h
    simp [noDup, tryDup_none_head c rest h.1, ih h.2]

theorem noDup_append_clean (p t : List Char) (hp : p.any Char.isDigit = false)
    (ht : noDup t = true) : noDup (p ++ t) = true := by
  induction p with
  | nil => simpa using ht
  | cons c p ih =>
    simp only [List.any_cons, Bool.or_eq_false_iff] at hp
    simp [noDup, tryDup_none_head c (p ++ t) hp.1, ih hp.2]

theorem noDup_marker (d s : List Char) (hd : ∀ x ∈ d, x.isDigit = true)
    (hs : s.any Char.isDigit = false) : noDup (d ++ 'F' :: ']' :: s) = true := by
  induction d with
  | nil =>
    apply noDup_of_noDigit
    simp [List.any_cons, hs]
  | cons a d ih =>
    have ha : a.isDigit = true := hd a (List.mem_cons_self a d)
    have ih' := ih (fun x hx => hd x (List.mem_cons_of_mem a hx))
    have htw := takeWhile_digits_of_append (a :: d) 'F' (']' :: s)
      hd (by decide)
    have hne : a ≠ ']' := by
      intro h
      rw [h] at ha
      simp at ha
    have htd : tryDup ((a :: d) ++ 'F' :: ']' :: s) = none := by
      simp only [tryDup, htw.1, htw.2]
      have hpf : ('F' :: ((a :: d) ++ ['F'])).isPrefixOf ('F' :: ']' :: s) = false := by
        simp [List.isPrefixOf]
        exact fun h => absurd h hne
      rw [hpf]
      simp
    simp only [List.cons_append] at htd ⊢
    simp [noDup, htd, ih']

theorem noDup_full (p d s : List Char) (hp : p.any Char.isDigit = false)
    (hd : ∀ x ∈ d, x.isDigit = true) (hs : s.any Char.isDigit = false) :
    noDup (p ++ '[' :: (d ++ 'F' :: ']' :: s)) = true := by
  apply noDup_append_clean p _ hp
  simp only [noDup]
  have h1 : tryDup ('[' :: (d ++ 'F' :: ']' :: s)) = none :=
    tryDup_none_head _ _ (by decide)
  simp [h1, noDup_marker d s hd hs]

/-! ## Helper lemmas: the marker-substitution scanner -/

theorem crepM_nil (f : Nat) (m : FMap) : crepM f m [] = [] := by cases f <;> rfl

theorem takeWhile_digit_append_nil (p t : List Char) (hp : p.any Char.isDigit = false)
    (ht : headDigit t = false) : (p ++ t).takeWhile Char.isDigit = [] := by
  cases p with
  | nil =>
    cases t with
    | nil => rfl
    | cons c r =>
      simp only [headDigit] at ht
      simp [List.takeWhile_cons, ht]
  | cons c p =>
    simp only [List.any_cons, Bool.or_eq_false_iff] at hp
    simp [List.takeWhile_cons, hp.1]

theorem tryMarker_none_clean (c : Char) (rest : List Char) (hc : c.isDigit = false)
    (hr : rest.takeWhile Char.isDigit = []) : tryMarker (c :: rest) = none := by
  by_cases h : c = '['
  · simp [tryMarker, h, hr]
  · simp [tryMarker, h, List.takeWhile_cons, hc]

theorem crepM_clean (m : FMap) :
    ∀ (l : List Char), l.any Char.isDigit = false →
      ∀ f, l.length ≤ f → crepM f m l = l := by
  intro l
  induction l with
  | nil => intro _ f _; exact crepM_nil f m
  | cons c rest ih =>
    intro h f hf
    cases f with
    | zero => simp at hf
    | succ f =>
      simp only [List.any_cons, Bool.or_eq_false_iff] at h
      have htm : tryMarker (c :: rest) = none :=
        tryMarker_none_clean c rest h.1 (takeWhile_digit_nil rest h.2)
      have hr : rest.length ≤ f := Nat.succ_le_succ_iff.mp hf
      simp [crepM, htm, ih h.2 f hr]

theorem crepM_append_clean (m : FMap) (p t : List Char)
    (hp : p.any Char.isDigit = false) (ht : headDigit t = false) :
    ∀ g, crepM (p.length + g) m (p ++ t) = p ++ crepM g m t := by
  induction p with
  | nil => intro g; simp
  | cons c p ih =>
    intro g
    simp only [List.any_cons, Bool.or_eq_false_iff] at hp
    have harith : (c :: p).length + g = (p.length + g) + 1 := by
      simp [List.length_cons]
      omega
    rw [harith]
    have htm : tryMarker (c :: (p ++ t)) = none :=
      tryMarker_none_clean c (p ++ t) hp.1 (takeWhile_digit_append_nil p t hp.2 ht)
    simp only [List.cons_append, crepM, List.append_eq]
    rw [htm]
    simp [ih hp.2 g]

theorem crepM_marker (m : FMap) (d s : List Char) (hd0 : d ≠ [])
    (hd : ∀ x ∈ d, x.isDigit = true) (g : Nat) :
    crepM (g + 1) m ('[' :: (d ++ 'F' :: ']' :: s)) = spanFor m d ++ crepM g m s := by
  have htw := takeWhile_digits_of_append d 'F' (']' :: s) hd (by decide)
  have htm : tryMarker ('[' :: (d ++ 'F' :: ']' :: s)) = some (d, s) := by
    simp [tryMarker, htw.1, htw.2, hd0]
  simp [crepM, htm]

theorem nrep_cons_some (f : Nat) (c : Char) (rest d rem : List Char)
    (h : tryDup (c :: rest) = some (d, rem)) :
    nrep (f + 1) (c :: rest) = d ++ 'F' :: nrep f rem := by
  simp [nrep, h]

theorem crepClean_nil (f : Nat) : crepClean f [] = [] := by cases f <;> rfl

theorem crepClean_cons_some (f : Nat) (c : Char) (rest d rem : List Char)
    (h : tryDup (c :: rest) = some (d, rem)) :
    crepClean (f + 1) (c :: rest) = crepClean f (dropOptBracketNum rem) := by
  simp [crepClean, h]

/-- Substituting a single bracketed marker surrounded by digit-free text:
the normalization pass leaves the text unchanged and the substitution
pass replaces exactly the marker, keeping the surroundings. -/
theorem conlang_subst_core (p s d : List Char) (m : FMap)
    (hp : p.any Char.isDigit = false) (hs : s.any Char.isDigit = false)
    (hd0 : d ≠ []) (hd : ∀ x ∈ d, x.isDigit = true) :
    processConlangInText ⟨p ++ '[' :: (d ++ 'F' :: ']' :: s)⟩ m
      = ⟨p ++ (spanFor m d ++ s)⟩ := by
  have core : crepM ((nrep ((p ++ '[' :: (d ++ 'F' :: ']' :: s)).length + 1)
        (p ++ '[' :: (d ++ 'F' :: ']' :: s))).length + 1) m
        (nrep ((p ++ '[' :: (d ++ 'F' :: ']' :: s)).length + 1)
          (p ++ '[' :: (d ++ 'F' :: ']' :: s)))
      = p ++ (spanFor m d ++ s) := by
    have h1 : nrep ((p ++ '[' :: (d ++ 'F' :: ']' :: s)).length + 1)
        (p ++ '[' :: (d ++ 'F' :: ']' :: s)) = p ++ '[' :: (d ++ 'F' :: ']' :: s) :=
      nrep_id _ (noDup_full p d s hp hd hs) _ (Nat.le_succ _)
    rw [h1]
    have e : (p ++ '[' :: (d ++ 'F' :: ']' :: s)).length + 1
        = p.length + ((d.length + s.length + 2) + 1 + 1) := by
      simp [List.length_append, List.length_cons]
      omega
    rw [e]
    rw [crepM_append_clean m p ('[' :: (d ++ 'F' :: ']' :: s)) hp rfl]
    rw [crepM_marker m d s hd0 hd (d.length + s.length + 2 + 1)]
    rw [crepM_clean m s hs (d.length + s.length + 2 + 1) (by omega)]
  exact congrArg String.mk core

/-- C3: with a recorded definition for the numeral, the marker becomes a
`conlang` span whose visible text is `<numeral>F` and whose `data-tr`
payload is the HTML-escaped annotation, surroundings unchanged. -/
theorem c3_marker_substitution (p s d : List Char) (t : String) (m : FMap)
    (hp : p.any Char.isDigit = false) (hs : s.any Char.isDigit = false)
    (hd0 : d ≠ []) (hd : ∀ x ∈ d, x.isDigit = true)
    (hm : mget m ⟨d⟩ = some t) :
    processConlangInText ⟨p ++ '[' :: (d ++ 'F' :: ']' :: s)⟩ m
      = ⟨p ++ (spanFound d t ++ s)⟩ := by
  have h := conlang_subst_core p s d m hp hs hd0 hd
  rw [h]
  simp [spanFor, hm]

/-- C3 witness: the spec's own scenario. -/
theorem c3_witness :
    processConlangInText "Hello [3F] world" [("3", "greeting in conlang")]
      = "Hello <span class=\"conlang\" data-tr=\"greeting in conlang\">3F</span> world" := by
  have h := c3_marker_substitution "Hello ".data " world".data ['3']
    "greeting in conlang" [("3", "greeting in conlang")]
    (by decide) (by decide) (by decide) (by decide) (by decide)
  have e1 : ("Hello [3F] world" : String)
      = ⟨"Hello ".data ++ '[' :: (['3'] ++ 'F' :: ']' :: " world".data)⟩ := by decide
  have e2 : (⟨"Hello ".data ++ (spanFound ['3'] "greeting in conlang" ++ " world".data)⟩ : String)
      = "Hello <span class=\"conlang\" data-tr=\"greeting in conlang\">3F</span> world" := by decide
  rw [e1, h, e2]

/-- C4 (amended): an unmapped numeral yields a non-fatal
`conlang missing` span, but its synthesized payload is the BRACKETED
text `[translation missing for n]`, not `translation missing for n`. -/
theorem c4_missing_marker_amended (p s d : List Char) (m : FMap)
    (hp : p.any Char.isDigit = false) (hs : s.any Char.isDigit = false)
    (hd0 : d ≠ []) (hd : ∀ x ∈ d, x.isDigit = true)
    (hm : mget m ⟨d⟩ = none) :
    processConlangInText ⟨p ++ '[' :: (d ++ 'F' :: ']' :: s)⟩ m
      = ⟨p ++ (spanMissing d ++ s)⟩ := by
  have h := conlang_subst_core p s d m hp hs hd0 hd
  rw [h]
  simp [spanFor, hm]

/-- C4 counterexample: the payload carries brackets, so the claim's
exact payload `translation missing for 9` is not what is produced. -/
theorem c4_counterexample :
    processConlangInText "[9F]" [] =
      "<span class=\"conlang missing\" data-tr=\"[translation missing for 9]\">9F</span>" ∧
    processConlangInText "[9F]" [] ≠
      "<span class=\"conlang missing\" data-tr=\"translation missing for 9\">9F</span>" := by
  decide

/-- C4 witness: the spec's `[9F]` scenario through the amended theorem. -/
theorem c4_witness :
    processConlangInText ⟨[] ++ '[' :: (['9'] ++ 'F' :: ']' :: [])⟩ []
      = ⟨[] ++ (spanMissing ['9'] ++ [])⟩ :=
  c4_missing_marker_amended [] [] ['9'] []
    (by decide) (by decide) (by decide) (by decide) (by decide)

/-- C5 (amended): part_000's `normalizeRefs` collapses `nFnF` to the
canonical `nF` and runs before the substitution pass inside
`processConlangInText`; converter.js's `cleanupArtifacts`, however,
deletes the artifact outright (empty string), it does not collapse it. -/
theorem c5_artifact_amended (d : List Char) (hd0 : d ≠ [])
    (hd : ∀ x ∈ d, x.isDigit = true) :
    normalizeRefs ⟨d ++ 'F' :: (d ++ ['F'])⟩ = ⟨d ++ ['F']⟩ ∧
    cleanupArtifacts ⟨d ++ 'F' :: (d ++ ['F'])⟩ = "" ∧
    ∀ (s : String) (m : FMap),
      processConlangInText s m = conlangSubstOnly (normalizeRefs s) m := by
  have htd : tryDup (d ++ 'F' :: (d ++ ['F'])) = some (d, []) := by
    have h := tryDup_dup d [] hd0 hd
    simpa using h
  obtain ⟨a, d', rfl⟩ : ∃ a d', d = a :: d' := by
    cases d with
    | nil => exact absurd rfl hd0
    | cons a d' => exact ⟨a, d', rfl⟩
  have hL : (a :: d') ++ 'F' :: ((a :: d') ++ ['F'])
      = a :: (d' ++ 'F' :: ((a :: d') ++ ['F'])) := by simp
  have htd' : tryDup (a :: (d' ++ 'F' :: ((a :: d') ++ ['F']))) = some (a :: d', []) := by
    rw [← hL]
    exact htd
  refine ⟨?_, ?_, fun s m => rfl⟩
  · have step : nrep (((a :: d') ++ 'F' :: ((a :: d') ++ ['F'])).length + 1)
        ((a :: d') ++ 'F' :: ((a :: d') ++ ['F']))
        = (a :: d') ++ ['F'] := by
      conv_lhs => rw [hL]
      rw [nrep_cons_some _ _ _ _ _ htd']
      simp [nrep_nil]
    exact congrArg String.mk step
  · have step : crepClean (((a :: d') ++ 'F' :: ((a :: d') ++ ['F'])).length + 1)
        ((a :: d') ++ 'F' :: ((a :: d') ++ ['F'])) = [] := by
      conv_lhs => rw [hL]
      rw [crepClean_cons_some _ _ _ _ _ htd']
      exact crepClean_nil _
    exact congrArg String.mk step

/-- C5 counterexample: converter.js's artifact cleanup maps `7F7F` to
the empty string, not to the canonical marker `7F`. -/
theorem c5_counterexample :
    cleanupArtifacts "7F7F" = "" ∧ cleanupArtifacts "7F7F" ≠ "7F" := by decide

/-- C5 witness: the amended theorem at `d = "7"`. -/
theorem c5_witness :
    normalizeRefs ⟨['7'] ++ 'F' :: (['7'] ++ ['F'])⟩ = ⟨['7'] ++ ['F']⟩ ∧
    cleanupArtifacts ⟨['7'] ++ 'F' :: (['7'] ++ ['F'])⟩ = "" := by
  have h := c5_artifact_amended ['7'] (by decide) (by decide)
  exact ⟨h.1, h.2.1⟩

/-- C6 (amended): the normalizer is the identity — hence idempotent — on
digit-free text, but it is NOT idempotent in general (see the
counterexample with three stacked markers). -/
theorem c6_normalizer_amended (t : String) (h : t.data.any Char.isDigit = false) :
    normalizeRefs t = t ∧ normalizeRefs (normalizeRefs t) = normalizeRefs t := by
  have h1 : normalizeRefs t = t := by
    have h2 := nrep_id t.data (noDup_of_noDigit t.data h) (t.data.length + 1) (Nat.le_succ _)
    show (⟨nrep (t.data.length + 1) t.data⟩ : String) = t
    rw [h2]
  refine ⟨h1, ?_⟩
  rw [h1]
  exact h1

/-- C6 counterexample: one pass over `7F7F7F` leaves `7F7F`, which a
second pass collapses further — the normalizer is not idempotent. -/
theorem c6_counterexample :
    normalizeRefs (normalizeRefs "7F7F7F") ≠ normalizeRefs "7F7F7F" ∧
    normalizeRefs "7F7F7F" = "7F7F" ∧ normalizeRefs "7F7F" = "7F" := by decide

/-- C6 witness: the amended theorem on a digit-free string. -/
theorem c6_witness :
    normalizeRefs "hello" = "hello" ∧
    normalizeRefs (normalizeRefs "hello") = normalizeRefs "hello" :=
  c6_normalizer_amended "hello" (by decide)

/-- C9: the UI pass wraps non-marker bracketed text in a `ui` span, but
because the replacement is returned from a callback, the `$1` is not
expanded: the span's visible content is the literal text `[$1]`, not the
original bracketed text (marker-shaped content is left unmodified). -/
theorem c9_ui_literal_bug :
    processUIElements "Access the [MENU] option"
      = "Access the <span class=\"ui\">[$1]</span> option" ∧
    processUIElements "see [3F] now" = "see [3F] now" := by decide

/-! ## Helper lemmas: escapeHTML -/

theorem repC_append (c : Char) (r l₁ l₂ : List Char) :
    repC c r (l₁ ++ l₂) = repC c r l₁ ++ repC c r l₂ := by
  induction l₁ with
  | nil => rfl
  | cons x xs ih =>
    by_cases h : x = c <;> simp [repC, h, ih]

theorem repC_not_mem (c : Char) (r l : List Char) (h : c ∉ l) : repC c r l = l := by
  induction l with
  | nil => rfl
  | cons x xs ih =>
    simp only [List.mem_cons] at h
    push_neg at h
    have hx : ¬ x = c := fun hxc => h.1 hxc.symm
    simp [repC, hx, ih h.2]

theorem escL_append (l₁ l₂ : List Char) : escL (l₁ ++ l₂) = escL l₁ ++ escL l₂ := by
  simp [escL, repC_append]

theorem escL_single (c : Char) : escL [c] = esc1 c := by
  by_cases h1 : c = '&'
  · subst h1; decide
  by_cases h2 : c = '<'
  · subst h2; decide
  by_cases h3 : c = '>'
  · subst h3; decide
  by_cases h4 : c = '"'
  · subst h4; decide
  by_cases h5 : c = apos
  · subst h5; decide
  simp [escL, esc1, repC, h1, h2, h3, h4, h5]

theorem escL_eq_escSpec (l : List Char) : escL l = escSpec l := by
  induction l with
  | nil => rfl
  | cons c xs ih =>
    have : c :: xs = [c] ++ xs := rfl
    rw [this, escL_append, escL_single, ih]
    rfl

theorem escSpec_bad (l : List Char) : ∀ x ∈ escSpec l, badC x = false := by
  induction l with
  | nil => intro x hx; simp [escSpec] at hx
  | cons c xs ih =>
    intro x hx
    simp only [escSpec, List.mem_append] at hx
    rcases hx with hx | hx
    · by_cases h1 : c = '&'
      · subst h1; exact (by decide : ∀ y ∈ esc1 '&', badC y = false) x hx
      by_cases h2 : c = '<'
      · subst h2; exact (by decide : ∀ y ∈ esc1 '<', badC y = false) x hx
      by_cases h3 : c = '>'
      · subst h3; exact (by decide : ∀ y ∈ esc1 '>', badC y = false) x hx
      by_cases h4 : c = '"'
      · subst h4; exact (by decide : ∀ y ∈ esc1 '"', badC y = false) x hx
      by_cases h5 : c = apos
      · subst h5; exact (by decide : ∀ y ∈ esc1 apos, badC y = false) x hx
      simp only [esc1, h1, h2, h3, h4, h5, if_false, List.mem_singleton] at hx
      subst hx
      simp [badC, h2, h3, h4, h5]
    · exact ih x hx

theorem cons_no_amp (l : List Char) (hl : '&' ∉ l) :
    ∀ pre suf, ('&' :: l) = pre ++ '&' :: suf → pre = [] ∧ suf = l := by
  intro pre suf h
  cases pre with
  | nil => simpa using h.symm
  | cons x pre =>
    simp only [List.cons_append, List.cons.injEq] at h
    exfalso
    apply hl
    rw [h.2]
    exact List.mem_append_right pre (List.mem_cons_self _ _)

theorem esc1_amp_split (c : Char) (pre suf : List Char)
    (h : esc1 c = pre ++ '&' :: suf) :
    pre = [] ∧ '&' :: suf = esc1 c ∧
      (esc1 c = "&amp;".data ∨ esc1 c = "&lt;".data ∨ esc1 c = "&gt;".data ∨
        esc1 c = "&quot;".data ∨ esc1 c = "&#39;".data) := by
  by_cases h1 : c = '&'
  · subst h1
    have he : esc1 '&' = '&' :: "amp;".data := by decide
    rw [he] at h
    obtain ⟨hp, hs⟩ := cons_no_amp "amp;".data (by decide) pre suf h
    subst hp; subst hs
    exact ⟨rfl, he.symm, Or.inl (by decide)⟩
  by_cases h2 : c = '<'
  · subst h2
    have he : esc1 '<' = '&' :: "lt;".data := by decide
    rw [he] at h
    obtain ⟨hp, hs⟩ := cons_no_amp "lt;".data (by decide) pre suf h
    subst hp; subst hs
    exact ⟨rfl, he.symm, Or.inr (Or.inl (by decide))⟩
  by_cases h3 : c = '>'
  · subst h3
    have he : esc1 '>' = '&' :: "gt;".data := by decide
    rw [he] at h
    obtain ⟨hp, hs⟩ := cons_no_amp "gt;".data (by decide) pre suf h
    subst hp; subst hs
    exact ⟨rfl, he.symm, Or.inr (Or.inr (Or.inl (by decide)))⟩
  by_cases h4 : c = '"'
  · subst h4
    have he : esc1 '"' = '&' :: "quot;".data := by decide
    rw [he] at h
    obtain ⟨hp, hs⟩ := cons_no_amp "quot;".data (by decide) pre suf h
    subst hp; subst hs
    exact ⟨rfl, he.symm, Or.inr (Or.inr (Or.inr (Or.inl (by decide))))⟩
  by_cases h5 : c = apos
  · subst h5
    have he : esc1 apos = '&' :: "#39;".data := by decide
    rw [he] at h
    obtain ⟨hp, hs⟩ := cons_no_amp "#39;".data (by decide) pre suf h
    subst hp; subst hs
    exact ⟨rfl, he.symm, Or.inr (Or.inr (Or.inr (Or.inr (by decide))))⟩
  exfalso
  simp only [esc1, h1, h2, h3, h4, h5, if_false] at h
  cases pre with
  | nil =>
    simp only [List.nil_append, List.cons.injEq] at h
    exact h1 h.1
  | cons y pre =>
    have hlen := congrArg List.length h
    simp only [List.length_singleton, List.length_append, List.length_cons,
      List.length_nil] at hlen
    omega

theorem escSpec_amp (l : List Char) :
    ∀ pre suf, escSpec l = pre ++ '&' :: suf →
      ("&amp;".data <+: ('&' :: suf)) ∨ ("&lt;".data <+: ('&' :: suf)) ∨
      ("&gt;".data <+: ('&' :: suf)) ∨ ("&quot;".data <+: ('&' :: suf)) ∨
      ("&#39;".data <+: ('&' :: suf)) := by
  induction l with
  | nil =>
    intro pre suf h
    exfalso
    cases pre <;> simp [escSpec] at h
  | cons c xs ih =>
    intro pre suf h
    simp only [escSpec] at h
    rcases List.append_eq_append_iff.mp h with ⟨a', ha1, ha2⟩ | ⟨c', hc1, hc2⟩
    · exact ih a' suf ha2
    · cases c' with
      | nil =>
        simp only [List.nil_append] at hc2
        exact ih [] suf hc2.symm
      | cons y c'' =>
        have hy : y = '&' ∧ suf = c'' ++ escSpec xs := by
          have := hc2
          simp only [List.cons_append, List.cons.injEq] at this
          exact ⟨this.1.symm, this.2⟩
        obtain ⟨rfl, rfl⟩ := hy
        obtain ⟨hpre, hcons, hent⟩ := esc1_amp_split c pre c'' hc1
        have hfull : '&' :: (c'' ++ escSpec xs) = esc1 c ++ escSpec xs := by
          rw [← hcons]
          rfl
        rcases hent with he | he | he | he | he
        · exact Or.inl ⟨escSpec xs, by rw [hfull, he]⟩
        · exact Or.inr (Or.inl ⟨escSpec xs, by rw [hfull, he]⟩)
        · exact Or.inr (Or.inr (Or.inl ⟨escSpec xs, by rw [hfull, he]⟩))
        · exact Or.inr (Or.inr (Or.inr (Or.inl ⟨escSpec xs, by rw [hfull, he]⟩)))
        · exact Or.inr (Or.inr (Or.inr (Or.inr ⟨escSpec xs, by rw [hfull, he]⟩)))

/-- C10: escaped output contains no literal `<`, `>`, `"` or apostrophe,
and every `&` in it begins one of the five emitted entities — so an
annotation inserted as a quoted attribute value cannot break out. -/
theorem c10_escape_safe (s : String) :
    (∀ c, c ∈ (escapeHTML s).data → badC c = false) ∧
    (∀ pre suf, (escapeHTML s).data = pre ++ '&' :: suf →
      ("&amp;".data <+: ('&' :: suf)) ∨ ("&lt;".data <+: ('&' :: suf)) ∨
      ("&gt;".data <+: ('&' :: suf)) ∨ ("&quot;".data <+: ('&' :: suf)) ∨
      ("&#39;".data <+: ('&' :: suf))) := by
  have hd : (escapeHTML s).data = escSpec s.data := escL_eq_escSpec s.data
  constructor
  · intro c hc
    rw [hd] at hc
    exact escSpec_bad s.data c hc
  · intro pre suf h
    rw [hd] at h
    exact escSpec_amp s.data pre suf h

/-- C10 witness: the theorem applied to `"a<b"` at a concrete character
and at the concrete split around its `&`. -/
theorem c10_witness :
    badC 'a' = false ∧
    (("&amp;".data <+: ('&' :: "lt;b".data)) ∨ ("&lt;".data <+: ('&' :: "lt;b".data)) ∨
     ("&gt;".data <+: ('&' :: "lt;b".data)) ∨ ("&quot;".data <+: ('&' :: "lt;b".data)) ∨
     ("&#39;".data <+: ('&' :: "lt;b".data))) :=
  ⟨(c10_escape_safe "a<b").1 'a' (by decide),
   (c10_escape_safe "a<b").2 "a".data "lt;b".data (by decide)⟩

/-! ## Helper lemmas: the footnote map -/

theorem mget_mset_self (m : FMap) (k v : String) : mget (mset m k v) k = some v := by
  induction m with
  | nil => simp [mset, mget]
  | cons p rest ih =>
    by_cases h : p.1 = k
    · obtain ⟨k', v'⟩ := p
      simp only at h
      simp [mset, mget, h]
    · obtain ⟨k', v'⟩ := p
      simp only at h
      simp [mset, mget, h, ih]

theorem mget_mset_ne (m : FMap) (k k' v : String) (h : ¬ k' = k) :
    mget (mset m k' v) k = mget m k := by
  induction m with
  | nil => simp [mset, mget, h]
  | cons p rest ih =>
    obtain ⟨k'', v''⟩ := p
    by_cases h2 : k'' = k'
    · subst h2
      have e1 : mset ((k'', v'') :: rest) k'' v = (k'', v) :: rest := by simp [mset]
      rw [e1]
      have h3 : ¬ k'' = k := h
      simp [mget, h3]
    · have e1 : mset ((k'', v'') :: rest) k' v = (k'', v'') :: mset rest k' v := by
        simp [mset, h2]
      rw [e1]
      by_cases h3 : k'' = k
      · simp [mget, h3]
      · simp [mget, h3, ih]

theorem mget_foldl_mset (l : List (String × String)) :
    ∀ (m : FMap) (k : String),
      mget (l.foldl (fun m p => mset m p.1 p.2) m) k =
        (match lastOf l k with
         | some v => some v
         | none => mget m k) := by
  induction l with
  | nil => intro m k; simp [lastOf]
  | cons p rest ih =>
    intro m k
    simp only [List.foldl_cons]
    rw [ih (mset m p.1 p.2) k]
    simp only [lastOf]
    cases hl : lastOf rest k with
    | some v => simp
    | none =>
      by_cases hp : p.1 = k
      · subst hp
        simp [mget_mset_self]
      · simp [hp, mget_mset_ne m k p.1 p.2 hp]

theorem mget_mkMap (l : List (String × String)) (k : String) :
    mget (mkMap l) k = lastOf l k := by
  have h := mget_foldl_mset l [] k
  simp only [mkMap] at h ⊢
  rw [h]
  cases lastOf l k <;> simp [mget]

theorem lastOf_append (a b : List (String × String)) (k : String) :
    lastOf (a ++ b) k =
      (match lastOf b k with
       | some v => some v
       | none => lastOf a k) := by
  induction a with
  | nil =>
    simp only [List.nil_append, lastOf]
    cases lastOf b k <;> simp
  | cons p rest ih =>
    simp only [List.cons_append, lastOf, List.append_eq]
    rw [ih]
    cases lastOf b k with
    | some v => simp
    | none => cases lastOf rest k <;> simp

/-- C2 (amended): the mapping is LAST-wins — `Map.set` overwrites an
existing numeral's entry, and the merge
`new Map([...extracted, ...additional])` lets the later pass's entries
overwrite the earlier pass's, so each numeral ends up bound to the entry
of the latest pass that resolved it. -/
theorem c2_footmap_last_wins :
    (∀ (a b : FMap) (k : String),
      mget (footMapMerge a b) k =
        (match lastOf b k with
         | some v => some v
         | none => lastOf a k)) ∧
    (∀ (m : FMap) (k v : String), mget (mset m k v) k = some v) := by
  constructor
  · intro a b k
    rw [footMapMerge, mget_mkMap, lastOf_append]
  · exact mget_mset_self

/-- C2 counterexample: the container pass (highest-priority per the
claim) records `3 ↦ alpha`, the later generic pass records `3 ↦ beta`,
and the merged map binds `3` to `beta` — the earlier entry is
overwritten, so first-wins is false. -/
theorem c2_counterexample :
    (parseAndCleanFootnotes
        [⟨"div", "footnotes", "", [⟨"p", "fn3", "", "3. alpha", ""⟩]⟩]).2
      = [("3", "alpha")] ∧
    extractFootnotes [⟨"p", "footnote-3", "", "3. beta", ""⟩] = [("3", "beta")] ∧
    mget (footMapMerge
        (parseAndCleanFootnotes
          [⟨"div", "footnotes", "", [⟨"p", "fn3", "", "3. alpha", ""⟩]⟩]).2
        (extractFootnotes [⟨"p", "footnote-3", "", "3. beta", ""⟩])) "3"
      = some "beta" ∧
    ("alpha" : String) ≠ "beta" := by decide

/-! ## C7: footnote containers -/

theorem pacf_flow_aux (doc : List FNode) :
    ∀ acc : List FNode × FMap,
      (doc.foldl pacfStep acc).1 = acc.1 ++ doc.filter (fun n => !isFootSection n) := by
  induction doc with
  | nil => intro acc; simp
  | cons n rest ih =>
    intro acc
    by_cases h : isFootSection n = true
    · simp only [List.foldl_cons, pacfStep, h, if_pos, List.filter_cons]
      rw [ih]
      simp [h]
    · simp only [List.foldl_cons, pacfStep, h, if_neg, List.filter_cons]
      rw [ih]
      simp only [Bool.eq_false_iff] at h
      simp [h, List.append_assoc]

/-- C7: every recognized footnote container is removed from the flow
after its children are scanned, regardless of how many definitions were
extracted (the output flow is exactly the non-container nodes); and a
child whose numeral is recovered but whose stripped annotation text is
empty contributes nothing to the mapping. -/
theorem c7_footnote_container :
    (∀ doc : List FNode,
      (parseAndCleanFootnotes doc).1 = doc.filter (fun n => !isFootSection n)) ∧
    (∀ (m : FMap) (c : FElem),
      (pcNum c).isSome = true →
      trimL (stripLead1 (trimL c.text.data)) = [] →
      pcChild m c = m) := by
  constructor
  · intro doc
    have h := pacf_flow_aux doc ([], [])
    simpa [parseAndCleanFootnotes] using h
  · intro m c h1 h2
    obtain ⟨num, hn⟩ := Option.isSome_iff_exists.mp h1
    simp [pcChild, hn, h2]

/-- C7 witness: the spec's scenario — three entries, two recoverable and
one with neither numeral nor text, give exactly two mapping entries and
the container disappears from the flow; and a child with a numeral but
empty stripped text is a no-op. -/
theorem c7_witness :
    (parseAndCleanFootnotes
        [⟨"div", "footnotes", "",
          [⟨"p", "", "", "1. alpha", ""⟩, ⟨"p", "", "", "2) beta", ""⟩,
           ⟨"p", "", "", "", ""⟩]⟩]).1 = [] ∧
    (parseAndCleanFootnotes
        [⟨"div", "footnotes", "",
          [⟨"p", "", "", "1. alpha", ""⟩, ⟨"p", "", "", "2) beta", ""⟩,
           ⟨"p", "", "", "", ""⟩]⟩]).2 = [("1", "alpha"), ("2", "beta")] ∧
    pcChild [("1", "alpha")] ⟨"p", "note4", "", "4.", ""⟩ = [("1", "alpha")] := by
  refine ⟨?_, by decide, ?_⟩
  · rw [c7_footnote_container.1]
    decide
  · exact c7_footnote_container.2 [("1", "alpha")] ⟨"p", "note4", "", "4.", ""⟩
      (by decide) (by decide)

/-! ## Helper lemmas: the structure partitioner -/

theorem appendToLast_isEmpty (ls : List (List Nat)) (i : Nat) :
    (appendToLast ls i).isEmpty = ls.isEmpty := by
  match ls with
  | [] => rfl
  | [l] => rfl
  | l :: l' :: ls' => rfl

theorem appendToLast_length (ls : List (List Nat)) (i : Nat) :
    (appendToLast ls i).length = ls.length := by
  induction ls with
  | nil => rfl
  | cons l ls ih =>
    cases ls with
    | nil => rfl
    | cons l' ls' =>
      simp only [appendToLast, List.length_cons]
      rw [ih]
      simp

theorem isEmpty_append_singleton (ls : List (List Nat)) (x : List Nat) :
    (ls ++ [x]).isEmpty = false := by
  cases ls <;> rfl

theorem cntL_append_nil (j : Nat) (ls : List (List Nat)) :
    cntL j (ls ++ [[]]) = cntL j ls := by
  simp [cntL]

theorem cntL_appendToLast (j : Nat) (ls : List (List Nat)) (i : Nat) (h : ls ≠ []) :
    cntL j (appendToLast ls i) = cntL j ls + (if j = i then 1 else 0) := by
  induction ls with
  | nil => exact absurd rfl h
  | cons l ls ih =>
    cases ls with
    | nil =>
      simp only [appendToLast, cntL, List.map_cons, List.map_nil, List.sum_cons,
        List.sum_nil, List.count_append]
      have hc : List.count j [i] = if j = i then 1 else 0 := by
        by_cases hji : j = i
        · subst hji; simp
        · have hij : ¬ i = j := fun he => hji he.symm
          simp [List.count_cons, List.count_nil, hij, hji]
      rw [hc]
      omega
    | cons l' ls' =>
      have e1 : appendToLast (l :: l' :: ls') i = l :: appendToLast (l' :: ls') i := rfl
      rw [e1]
      have hih := ih (by simp)
      simp only [cntL, List.map_cons, List.sum_cons] at hih ⊢
      omega

theorem stepPart_pos (st : PartState) (b : Block) : (stepPart st b).pos = st.pos + 1 := by
  simp only [stepPart]
  repeat' split
  all_goals rfl

theorem toAbs_step (st : PartState) (b : Block) :
    toAbs (stepPart st b) = stepAbs (toAbs st) b := by
  simp only [stepPart, stepAbs, toAbs]
  repeat' split
  all_goals
    simp_all [toAbs, appendToLast_isEmpty, isEmpty_append_singleton]

theorem count_singleton_eq (j i : Nat) : List.count j [i] = if j = i then 1 else 0 := by
  by_cases hji : j = i
  · subst hji; simp
  · have hij : ¬ i = j := fun he => hji he.symm
    simp [List.count_cons, List.count_nil, hij, hji]

theorem cntAll_step (st : PartState) (b : Block) (j : Nat) :
    cntAll (stepPart st b) j
      = cntAll st j +
        (if j = st.pos ∧ isAssigned (classifyAt (toAbs st) b) = true then 1 else 0) := by
  by_cases h1 : (isTopHeading b && appendixRx b.text) = true
  · have hcls : classifyAt (toAbs st) b = BClass.heading := by simp [classifyAt, h1]
    simp [stepPart, h1, cntAll, cntL_append_nil, hcls, isAssigned]
  by_cases h2 : (isTopHeading b && chapterRx b.text) = true
  · have hcls : classifyAt (toAbs st) b = BClass.heading := by
      simp [classifyAt, h1, h2]
    simp [stepPart, h1, h2, cntAll, cntL_append_nil, hcls, isAssigned]
  by_cases h3 : (decide (b.tag = HTag.h1) && bookRx b.text) = true
  · have hcls : classifyAt (toAbs st) b = BClass.heading := by
      simp [classifyAt, h1, h2, h3]
    simp [stepPart, h1, h2, h3, cntAll, hcls, isAssigned]
  by_cases h4 : st.inFrontMatter = true
  · have hcls : classifyAt (toAbs st) b = BClass.toFront := by
      simp [classifyAt, toAbs, h1, h2, h3, h4]
    simp only [stepPart, h1, h2, h3, h4, Bool.false_eq_true, if_false, if_true,
      cntAll, hcls, isAssigned, List.count_append, count_singleton_eq, and_true]
    omega
  by_cases h5 : (!st.appendices.isEmpty && st.chapters.isEmpty) = true
  · have happ : st.appendices ≠ [] := by
      intro he
      rw [he] at h5
      simp at h5
    have hcls : classifyAt (toAbs st) b = BClass.toAppendix := by
      simp only [Bool.and_eq_true, Bool.not_eq_true'] at h5
      simp [classifyAt, toAbs, h1, h2, h3, h4, h5.1, h5.2]
    simp only [stepPart, h1, h2, h3, h4, h5, Bool.false_eq_true, if_false, if_true,
      cntAll, hcls, isAssigned, cntL_appendToLast j st.appendices st.pos happ, and_true]
    omega
  by_cases h6 : (!st.appendices.isEmpty) = true
  · have happ : st.appendices ≠ [] := by
      intro he
      rw [he] at h6
      simp at h6
    have hchapb : st.chapters.isEmpty = false := by
      by_cases hc : st.chapters.isEmpty = true
      · exfalso; apply h5; simp [h6, hc]
      · simpa using hc
    have hchap : st.chapters ≠ [] := by
      intro he
      rw [he] at hchapb
      simp at hchapb
    by_cases h7 : prevAppendix st.prev = true
    · have hcls : classifyAt (toAbs st) b = BClass.toAppendix := by
        simp [classifyAt, toAbs, h1, h2, h3, h4, h6, hchapb, h7]
      simp [stepPart, h1, h2, h3, h4, h5, h6, h7, hchapb, cntAll, hcls, isAssigned,
        cntL_appendToLast j st.appendices st.pos happ, and_true]
      omega
    · have hcls : classifyAt (toAbs st) b = BClass.toChapter := by
        simp [classifyAt, toAbs, h1, h2, h3, h4, h6, hchapb, h7]
      simp [stepPart, h1, h2, h3, h4, h5, h6, h7, hchapb, cntAll, hcls, isAssigned,
        cntL_appendToLast j st.chapters st.pos hchap, and_true]
      omega
  by_cases h8 : (!st.chapters.isEmpty) = true
  · have hchap : st.chapters ≠ [] := by
      intro he
      rw [he] at h8
      simp at h8
    have hcls : classifyAt (toAbs st) b = BClass.toChapter := by
      simp only [Bool.not_eq_true'] at h6
      simp [classifyAt, toAbs, h1, h2, h3, h4, h6, h8]
    simp [stepPart, h1, h2, h3, h4, h5, h6, h8, cntAll, hcls, isAssigned,
      cntL_appendToLast j st.chapters st.pos hchap, and_true]
    omega
  · have hcls : classifyAt (toAbs st) b = BClass.dropped := by
      simp only [Bool.not_eq_true'] at h6 h8
      simp [classifyAt, toAbs, h1, h2, h3, h4, h6, h8]
    simp [stepPart, h1, h2, h3, h4, h5, h6, h8, cntAll, hcls, isAssigned]

theorem InvC_init : InvC initPart := by
  intro j _
  simp [initPart, cntAll, cntL]

theorem InvC_step (st : PartState) (b : Block) (h : InvC st) : InvC (stepPart st b) := by
  intro j hj
  rw [stepPart_pos] at hj
  rw [cntAll_step]
  have hne : ¬ j = st.pos := by omega
  simp [hne]
  exact h j (by omega)

theorem run_cnt_lt (rest : List Block) :
    ∀ (st : PartState) (j : Nat), InvC st → j < st.pos →
      cntAll (rest.foldl stepPart st) j = cntAll st j := by
  induction rest with
  | nil => intro st j _ _; rfl
  | cons b r ih =>
    intro st j hinv hj
    simp only [List.foldl_cons]
    rw [ih (stepPart st b) j (InvC_step st b hinv) (by rw [stepPart_pos]; omega)]
    rw [cntAll_step]
    have hne : ¬ j = st.pos := by omega
    simp [hne]

theorem run_cnt (rest : List Block) :
    ∀ (k : Nat) (st : PartState), InvC st → ∀ (hk : k < rest.length),
      cntAll (rest.foldl stepPart st) (st.pos + k) =
        (if isAssigned (classifyAt ((rest.take k).foldl stepAbs (toAbs st))
            (rest.get ⟨k, hk⟩)) = true then 1 else 0) := by
  induction rest with
  | nil =>
    intro k st _ hk
    simp at hk
  | cons b r ih =>
    intro k st hinv hk
    cases k with
    | zero =>
      simp only [List.foldl_cons, List.take_zero, List.foldl_nil, Nat.add_zero,
        List.get]
      rw [run_cnt_lt r (stepPart st b) st.pos (InvC_step st b hinv)
        (by rw [stepPart_pos]; omega)]
      rw [cntAll_step]
      rw [hinv st.pos (Nat.le_refl _)]
      simp
    | succ k' =>
      have hk' : k' < r.length := by simpa using hk
      have harith : st.pos + (k' + 1) = (stepPart st b).pos + k' := by
        rw [stepPart_pos]; omega
      rw [harith]
      simp only [List.foldl_cons]
      rw [ih k' (stepPart st b) (InvC_step st b hinv) hk']
      rw [toAbs_step]
      congr 1

theorem structB_or (b : Block) :
    ((isTopHeading b && appendixRx b.text) || (isTopHeading b && chapterRx b.text) ||
      (decide (b.tag = HTag.h1) && bookRx b.text)) = isStructHeadingB b := by
  obtain ⟨tg, tx⟩ := b
  cases tg <;>
    cases hA : appendixRx tx <;> cases hC : chapterRx tx <;> cases hB : bookRx tx <;>
      simp [isStructHeadingB, isAppendixHeadingB, isChapterHeadingB, isBookHeadingB,
        isTopHeading, hA, hC, hB]

theorem stepAbs_spec (a : AbsState) (b : Block) :
    stepAbs a b =
      ⟨!((!a.inFM) || isStructHeadingB b), a.hasChap || isChapterHeadingB b,
        a.hasApp || isAppendixHeadingB b, some b⟩ := by
  obtain ⟨tg, tx⟩ := b
  cases tg <;>
    cases hA : appendixRx tx <;> cases hC : chapterRx tx <;> cases hB : bookRx tx <;>
      simp [stepAbs, isStructHeadingB, isAppendixHeadingB, isChapterHeadingB,
        isBookHeadingB, isTopHeading, hA, hC, hB]

theorem absOf_spec (l : List Block) :
    absOf l = ⟨!l.any isStructHeadingB, l.any isChapterHeadingB,
      l.any isAppendixHeadingB, l.getLast?⟩ := by
  induction l using List.reverseRecOn with
  | nil => rfl
  | append_singleton l b ih =>
    have h1 : absOf (l ++ [b]) = stepAbs (absOf l) b := by
      simp [absOf, List.foldl_append]
    rw [h1, ih, stepAbs_spec]
    simp [List.any_append, List.getLast?_concat]

theorem classify_dropped_iff (a : AbsState) (b : Block) :
    classifyAt a b = BClass.dropped ↔
      ((isTopHeading b && appendixRx b.text) = false ∧
       (isTopHeading b && chapterRx b.text) = false ∧
       (decide (b.tag = HTag.h1) && bookRx b.text) = false ∧
       a.inFM = false ∧ a.hasApp = false ∧ a.hasChap = false) := by
  obtain ⟨fm, hc, ha, pv⟩ := a
  cases hc1 : (isTopHeading b && appendixRx b.text) <;>
    cases hc2 : (isTopHeading b && chapterRx b.text) <;>
      cases hc3 : (decide (b.tag = HTag.h1) && bookRx b.text) <;>
        cases fm <;> cases hc <;> cases ha <;>
          cases hpv : prevAppendix pv <;>
            simp [classifyAt, hc1, hc2, hc3, hpv]

theorem any_structB (l : List Block) :
    l.any isStructHeadingB =
      (l.any isAppendixHeadingB || l.any isChapterHeadingB || l.any isBookHeadingB) := by
  induction l with
  | nil => rfl
  | cons b r ih =>
    simp only [List.any_cons, ih, isStructHeadingB]
    cases isAppendixHeadingB b <;> cases isChapterHeadingB b <;>
      cases isBookHeadingB b <;>
        cases r.any isAppendixHeadingB <;> cases r.any isChapterHeadingB <;>
          cases r.any isBookHeadingB <;> rfl

/-- C1 (amended): each block of the stream lands in at most one
section's content — exactly one when its classification is an
assignment — and the only blocks that are silently dropped (beyond the
structural headings themselves) are the non-structural blocks that
follow a book heading before any chapter or appendix heading has been
seen. -/
theorem c1_partition_amended (bs : List Block) (i : Nat) (h : i < bs.length) :
    cntAll (extractDocumentStructure bs) i =
      (if isAssigned (classifyAt (absOf (bs.take i)) (bs.get ⟨i, h⟩)) = true
       then 1 else 0) ∧
    (classifyAt (absOf (bs.take i)) (bs.get ⟨i, h⟩) = BClass.dropped ↔
      (isStructHeadingB (bs.get ⟨i, h⟩) = false ∧
       (bs.take i).any isBookHeadingB = true ∧
       (bs.take i).any isChapterHeadingB = false ∧
       (bs.take i).any isAppendixHeadingB = false)) := by
  constructor
  · have hrun := run_cnt bs i initPart InvC_init h
    have h0 : initPart.pos = 0 := rfl
    rw [h0, Nat.zero_add] at hrun
    have htabs : toAbs initPart = ⟨true, false, false, none⟩ := rfl
    rw [htabs] at hrun
    exact hrun
  · rw [classify_dropped_iff, absOf_spec]
    simp only [Bool.not_eq_false', Bool.not_eq_true']
    constructor
    · rintro ⟨hc1, hc2, hc3, hst, happ, hchap⟩
      have hb : isStructHeadingB (bs.get ⟨i, h⟩) = false := by
        rw [← structB_or, hc1, hc2, hc3]
        rfl
      refine ⟨hb, ?_, hchap, happ⟩
      have := any_structB (bs.take i)
      rw [hst, happ, hchap] at this
      simpa using this.symm
    · rintro ⟨hb, hbook, hchap, happ⟩
      have hc : ((isTopHeading (bs.get ⟨i, h⟩) && appendixRx (bs.get ⟨i, h⟩).text) ||
          (isTopHeading (bs.get ⟨i, h⟩) && chapterRx (bs.get ⟨i, h⟩).text) ||
          (decide ((bs.get ⟨i, h⟩).tag = HTag.h1) && bookRx (bs.get ⟨i, h⟩).text))
          = false := by
        rw [structB_or]
        exact hb
      simp only [Bool.or_eq_false_iff] at hc
      refine ⟨hc.1.1, hc.1.2, hc.2, ?_, happ, hchap⟩
      rw [any_structB, happ, hchap, hbook]
      simp

/-- C1 counterexample: a book heading (`Book One`) followed by a
paragraph — the paragraph is a non-heading block yet appears in NO
section's content, so "every non-heading block appears in exactly one
section" is false. -/
theorem c1_counterexample :
    cntAll (extractDocumentStructure
      [⟨HTag.h1, "Book One"⟩, ⟨HTag.para, "hello"⟩]) 1 = 0 ∧
    isStructHeadingB ⟨HTag.para, "hello"⟩ = false := by decide

/-- C1 witness: a paragraph after a chapter heading is assigned exactly
once. -/
theorem c1_witness :
    cntAll (extractDocumentStructure
      [⟨HTag.h1, "Chapter One"⟩, ⟨HTag.para, "hello"⟩]) 1 = 1 := by
  have h := c1_partition_amended
    [⟨HTag.h1, "Chapter One"⟩, ⟨HTag.para, "hello"⟩] 1 (by decide)
  rw [h.1]
  decide

theorem stepPart_chapters_len (st : PartState) (b : Block) :
    (stepPart st b).chapters.length
      = st.chapters.length + (if isChapterHeadingB b = true then 1 else 0) := by
  by_cases h1 : (isTopHeading b && appendixRx b.text) = true
  · have hcb : isChapterHeadingB b = false := by
      simp only [Bool.and_eq_true] at h1
      simp [isChapterHeadingB, h1.1, h1.2]
    simp [stepPart, h1, hcb]
  by_cases h2 : (isTopHeading b && chapterRx b.text) = true
  · have hcb : isChapterHeadingB b = true := by
      simp only [Bool.and_eq_true] at h2
      have ha : appendixRx b.text = false := by
        by_cases hx : appendixRx b.text = true
        · exact absurd (by simp [h2.1, hx]) h1
        · simpa using hx
      simp [isChapterHeadingB, h2.1, h2.2, ha]
    simp [stepPart, h1, h2, hcb]
  have hcb : isChapterHeadingB b = false := by
    by_cases hx : isChapterHeadingB b = true
    · exfalso
      apply h2
      simp only [isChapterHeadingB, Bool.and_eq_true] at hx
      simp [hx.1.1, hx.2]
    · simpa using hx
  by_cases h3 : (decide (b.tag = HTag.h1) && bookRx b.text) = true
  · simp [stepPart, h1, h2, h3, hcb]
  by_cases h4 : st.inFrontMatter = true
  · simp [stepPart, h1, h2, h3, h4, hcb]
  by_cases h5 : (!st.appendices.isEmpty && st.chapters.isEmpty) = true
  · simp [stepPart, h1, h2, h3, h4, h5, hcb]
  by_cases h6 : (!st.appendices.isEmpty) = true
  · by_cases h7 : prevAppendix st.prev = true
    · simp [stepPart, h1, h2, h3, h4, h5, h6, h7, hcb]
    · by_cases h8 : (!st.chapters.isEmpty) = true
      · have hch : ¬ st.chapters = [] := by
          intro he; rw [he] at h8; simp at h8
        simp [stepPart, h1, h2, h3, h4, h5, h6, h7, h8, hcb,
          appendToLast_length, hch]
      · have hch : st.chapters = [] := by
          by_cases hx : st.chapters = []
          · exact hx
          · exfalso; apply h8; simp [hx]
        simp [stepPart, h1, h2, h3, h4, h5, h6, h7, h8, hcb, hch]
  by_cases h8 : (!st.chapters.isEmpty) = true
  · simp [stepPart, h1, h2, h3, h4, h5, h6, h8, hcb, appendToLast_length]
  · simp [stepPart, h1, h2, h3, h4, h5, h6, h8, hcb]

theorem run_chapters_len (rest : List Block) :
    ∀ st : PartState,
      ((rest.foldl stepPart st).chapters).length
        = st.chapters.length + (rest.filter isChapterHeadingB).length := by
  induction rest with
  | nil => intro st; simp
  | cons b r ih =>
    intro st
    simp only [List.foldl_cons]
    rw [ih (stepPart st b), stepPart_chapters_len]
    by_cases hb : isChapterHeadingB b = true
    · simp only [List.filter_cons, hb, if_pos, List.length_cons, if_true]
      omega
    · simp [List.filter_cons, hb]

theorem p0NumberTok_isSome (s : String) :
    (p0NumberTok s).isSome = headDigit s.data := by
  cases hd : s.data with
  | nil => simp [p0NumberTok, headDigit, hd]
  | cons c r =>
    by_cases hc : c.isDigit = true
    · simp [p0NumberTok, headDigit, hd, hc]
    · simp [p0NumberTok, headDigit, hd, hc]

/-- C8 (amended): in converter.js a chapter opens exactly for top-two
headings that pass the `chapter <token>` test (after the appendix test) —
bare-numeral headings never open chapters there; in part_000's
`parseChapters` a heading is a chapter iff it has a `chapter <token>`
match or simply BEGINS WITH A DIGIT (no following punctuation required);
the matched token becomes the identifier `chapter-<token>`. -/
theorem c8_chapter_rule_amended :
    (∀ bs : List Block,
      (extractDocumentStructure bs).chapters.length
        = (bs.filter isChapterHeadingB).length) ∧
    (∀ s : String, p0IsChapter s = ((p0ChapterTok s).isSome || headDigit s.data)) ∧
    (∀ (n title : String) (i : Nat), generateId (some n) title i = "chapter-" ++ n) := by
  refine ⟨?_, ?_, fun n title i => rfl⟩
  · intro bs
    have h := run_chapters_len bs initPart
    simpa [extractDocumentStructure, initPart] using h
  · intro s
    simp only [p0IsChapter, p0NumberTok_isSome]

/-- C8 counterexample: converter.js does NOT open a chapter for a
heading beginning with a bare numeral followed by punctuation
(`7. Arrival` opens nothing), while part_000 opens a chapter for a
bare-numeral heading with NO punctuation at all (`7 dwarfs`). -/
theorem c8_counterexample :
    (extractDocumentStructure [⟨HTag.h1, "7. Arrival"⟩]).chapters = [] ∧
    p0IsChapter "7 dwarfs" = true := by decide

end Book
